import Mathlib

/-!
Verification of the Poisson power-law fitting engine of the xpysis notebooks.

The code under scrutiny is the `PowerlawPoissonFit` class of
`Example1_fit_HETG_powerlaw.ipynb`:

```python
def set_model_pars(self, pars):
    lognorm, pi = pars
    self.model.norm = np.power(10.0, lognorm)
    self.model.phoindex = pi

def model_chist(self, pars):
    elo, ehi, cts, cts_err = self.bin_counts(unit='keV')
    emid = 0.5 * (elo + ehi)
    self.set_model_pars(pars)
    mflux  = self.model.calculate(elo, ehi)
    result = self.apply_resp(mflux)
    return result

def loglikelihood(self, pars):
    ymodel = self.model_chist(pars)
    ydata  = self.counts
    cvals   = np.zeros(len(ymodel))
    ii      = (ymodel != 0.0)
    cvals[ii] = ydata[ii] * np.log(ymodel[ii]) - ymodel[ii]
    loglike = np.sum(cvals)
    if np.isfinite(loglike):
        return loglike
    else:
        return -np.inf

def cash(self, pars):
    result = self.loglikelihood(pars)
    return -result/2.0

def mod_residuals(self, pars):
    mcounts = self.model_chist(pars)
    cts_err = np.sqrt(self.counts)
    result  = np.zeros(len(self.counts))
    ii      = (cts_err != 0.0)
    result[ii] = (mcounts[ii] - self.counts[ii])/cts_err[ii]
    return result
```

We embed this code twice, at two levels of abstraction:

* an exact real-number embedding (`loglikelihoodR`, `cashR`, `mod_residualsR`,
  `bin_mid`) used for the value-level and ordering claims; on real inputs the
  `np.isfinite` guard of `loglikelihood` is the identity, so it is omitted
  there and modelled at the second level;
* an IEEE-style floating-point embedding (`FP`, `loglikelihoodFP`, `cashFP`)
  in which numbers are exact rationals extended with `+inf`, `-inf` and `NaN`,
  used for the claims about non-finite propagation.  The value of the natural
  logarithm on positive finite inputs is irrational, hence not representable;
  the embedding is parametric in the finite part of the logarithm
  (`rlog : ℚ → ℚ`), and every theorem holds for all choices of `rlog`, so in
  particular for any correctly rounded one.

The forward-folding chain `bin_counts` / `model.calculate` / `apply_resp`
lives in external libraries (pyxsis, clarsach), not in this repository's
notebooks; claims about the objective as a function of the parameter vector
are stated parametrically in those collaborators (see `model_chist_eval`).
-/

/-! ## Floating-point model: exact rationals extended with infinities and NaN -/

/-- A floating-point value: a finite (exact rational) number, an infinity, or
`NaN`.  Rounding and overflow of in-range arithmetic are not modelled; the
special-value propagation rules of IEEE 754 are. -/
inductive FP where
  | finite (q : ℚ)
  | posInf
  | negInf
  | nan
deriving DecidableEq

/-- IEEE addition on `FP`: `NaN` absorbs, `(+inf) + (-inf) = NaN`. -/
def FP.add : FP → FP → FP
  | nan, _ => nan
  | _, nan => nan
  | finite a, finite b => finite (a + b)
  | finite _, posInf => posInf
  | finite _, negInf => negInf
  | posInf, finite _ => posInf
  | negInf, finite _ => negInf
  | posInf, posInf => posInf
  | negInf, negInf => negInf
  | posInf, negInf => nan
  | negInf, posInf => nan

/-- IEEE negation on `FP`. -/
def FP.neg : FP → FP
  | nan => nan
  | finite a => finite (-a)
  | posInf => negInf
  | negInf => posInf

/-- IEEE subtraction on `FP`. -/
def FP.sub (x y : FP) : FP := FP.add x (FP.neg y)

/-- IEEE multiplication on `FP`: `NaN` absorbs (also `0 * NaN = NaN`),
`0 * inf = NaN`. -/
def FP.mul : FP → FP → FP
  | nan, _ => nan
  | _, nan => nan
  | finite a, finite b => finite (a * b)
  | finite a, posInf => if a > 0 then posInf else if a < 0 then negInf else nan
  | finite a, negInf => if a > 0 then negInf else if a < 0 then posInf else nan
  | posInf, finite b => if b > 0 then posInf else if b < 0 then negInf else nan
  | negInf, finite b => if b > 0 then negInf else if b < 0 then posInf else nan
  | posInf, posInf => posInf
  | posInf, negInf => negInf
  | negInf, posInf => negInf
  | negInf, negInf => posInf

/-- IEEE division on `FP` (signed zero is not modelled: the zero divisor is
treated as `+0`, which is the only zero numpy produces here). -/
def FP.div : FP → FP → FP
  | nan, _ => nan
  | _, nan => nan
  | finite a, finite b =>
      if b = 0 then (if a = 0 then nan else if a > 0 then posInf else negInf)
      else finite (a / b)
  | finite _, posInf => finite 0
  | finite _, negInf => finite 0
  | posInf, finite b => if b < 0 then negInf else posInf
  | negInf, finite b => if b < 0 then posInf else negInf
  | posInf, posInf => nan
  | posInf, negInf => nan
  | negInf, posInf => nan
  | negInf, negInf => nan

/-- `np.log` on `FP`, parametric in the finite logarithm `rlog` (the exact
value of `log q` is irrational; every theorem below holds for all `rlog`):
`log NaN = NaN`, `log` of a negative value is `NaN`, `log 0 = -inf`,
`log (+inf) = +inf`. -/
def FP.log (rlog : ℚ → ℚ) : FP → FP
  | nan => nan
  | posInf => posInf
  | negInf => nan
  | finite q => if q < 0 then nan else if q = 0 then negInf else finite (rlog q)

/-- `np.isfinite` on `FP`. -/
def FP.isfinite : FP → Bool
  | finite _ => true
  | _ => false

/-- `np.sum` on a list of `FP` values (left fold from `+0.0`). -/
def FP.sum (l : List FP) : FP := l.foldl FP.add (FP.finite 0)

/-- The local `cvals` of `PowerlawPoissonFit.loglikelihood`: zero-initialised,
and the bins with `ymodel != 0.0` (a comparison `NaN` and the infinities pass)
are overwritten with `ydata * log(ymodel) - ymodel`. -/
def cvalsFP (rlog : ℚ → ℚ) (ymodel ydata : List FP) : List FP :=
  (List.zip ymodel ydata).map (fun p =>
    if p.1 ≠ FP.finite 0 then FP.sub (FP.mul p.2 (FP.log rlog p.1)) p.1
    else FP.finite 0)

/-- `PowerlawPoissonFit.loglikelihood`, as a function of the model-predicted
counts `ymodel` and the observed counts `ydata` (floating-point level):
`loglike = np.sum(cvals)`, and a non-finite sum is replaced by `-inf`. -/
def loglikelihoodFP (rlog : ℚ → ℚ) (ymodel ydata : List FP) : FP :=
  if FP.isfinite (FP.sum (cvalsFP rlog ymodel ydata)) then
    FP.sum (cvalsFP rlog ymodel ydata)
  else FP.negInf

/-- `PowerlawPoissonFit.cash` (floating-point level): `-loglikelihood / 2.0`. -/
def cashFP (rlog : ℚ → ℚ) (ymodel ydata : List FP) : FP :=
  FP.div (FP.neg (loglikelihoodFP rlog ymodel ydata)) (FP.finite 2)

/-- The spec's formula for the Poisson log-likelihood: the sum of
`x_i * ln(m_i) - m_i` over exactly those bins where `m_i > 0`, every bin with
`m_i = 0` contributing `0` (written from the spec's words, to be compared
with `loglikelihoodFP`, the embedding of the source). -/
def poissonLogLikeSpec (rlog : ℚ → ℚ) (ymodel ydata : List ℚ) : ℚ :=
  ((ymodel.zip ydata).map (fun p =>
    if 0 < p.1 then p.2 * rlog p.1 - p.1 else 0)).sum

/-! ## Exact real-number embedding of the same methods -/

/-- `PowerlawPoissonFit.loglikelihood` on exact real inputs: the sum of
`ydata_i * log(ymodel_i) - ymodel_i` over the bins with `ymodel_i != 0.0`,
zero-model bins contributing the `np.zeros` initial value `0`.  On real
inputs the trailing `np.isfinite` guard is the identity (see
`loglikelihoodFP` for the non-finite cases). -/
noncomputable def loglikelihoodR (ymodel ydata : List ℝ) : ℝ :=
  ((List.zip ymodel ydata).map (fun p =>
    if p.1 ≠ 0 then p.2 * Real.log p.1 - p.1 else 0)).sum

/-- `PowerlawPoissonFit.cash` on exact real inputs: `-loglikelihood / 2.0`. -/
noncomputable def cashR (ymodel ydata : List ℝ) : ℝ :=
  -(loglikelihoodR ymodel ydata) / 2

/-- `PowerlawPoissonFit.mod_residuals` as a function of the model counts and
the observed counts: `cts_err = sqrt(counts)`, bins with `cts_err != 0.0` get
`(mcounts - counts) / cts_err`, the others keep the `np.zeros` value `0`.
(Observed counts are non-negative, where `Real.sqrt` agrees with `np.sqrt`.) -/
noncomputable def mod_residualsR (mcounts counts : List ℝ) : List ℝ :=
  (List.zip mcounts counts).map (fun p =>
    if Real.sqrt p.2 ≠ 0 then (p.1 - p.2) / Real.sqrt p.2 else 0)

/-- The bin midpoints `emid = 0.5 * (elo + ehi)` computed in
`model_chist` (and in `test_create_from_arrays` of the specutils notebook). -/
def bin_mid (elo ehi : List ℝ) : List ℝ :=
  (List.zip elo ehi).map (fun p => 0.5 * (p.1 + p.2))

/-! ## The fit object's mutable model state -/

/-- The `clarsach.Powerlaw` parameters mutated by `set_model_pars`. -/
structure Powerlaw where
  norm : ℝ
  phoindex : ℝ

/-- `PowerlawPoissonFit.set_model_pars`: overwrites **both** model parameters
from the parameter vector `pars = (lognorm, pi)`; the previous model state is
discarded entirely.  `np.power(10.0, lognorm)` is the real power
`Real.rpow 10 lognorm`. -/
noncomputable def set_model_pars (pars : ℝ × ℝ) (_m : Powerlaw) : Powerlaw :=
  { norm := Real.rpow 10 pars.1, phoindex := pars.2 }

/-- `PowerlawPoissonFit.model_chist` as an explicit state transformer on the
model parameters.  The spectrum bin edges `elo, ehi` are fixed data; the flux
evaluation `model.calculate` (clarsach) and the response folding
`apply_resp` (pyxsis) are external pure collaborators, passed as function
parameters.  Returns the predicted counts together with the model state after
the call. -/
noncomputable def model_chist_eval (calculate : Powerlaw → List ℝ → List ℝ → List ℝ)
    (apply_resp : List ℝ → List ℝ) (elo ehi : List ℝ)
    (pars : ℝ × ℝ) (m : Powerlaw) : List ℝ × Powerlaw :=
  let m2 := set_model_pars pars m
  (apply_resp (calculate m2 elo ehi), m2)

/-- `PowerlawPoissonFit.cash` as an explicit state transformer: evaluate the
model counts histogram, form the log-likelihood against the observed counts,
return `-loglikelihood / 2.0` together with the model state after the
evaluation. -/
noncomputable def cash_eval (calculate : Powerlaw → List ℝ → List ℝ → List ℝ)
    (apply_resp : List ℝ → List ℝ) (elo ehi counts : List ℝ)
    (pars : ℝ × ℝ) (m : Powerlaw) : ℝ × Powerlaw :=
  let r := model_chist_eval calculate apply_resp elo ehi pars m
  (cashR r.1 counts, r.2)

/-! ## Floating-point helper lemmas -/

theorem FP.add_nan (x : FP) : FP.add x FP.nan = FP.nan := by cases x <;> rfl

theorem FP.nan_add (x : FP) : FP.add FP.nan x = FP.nan := by cases x <;> rfl

theorem FP.mul_nan (x : FP) : FP.mul x FP.nan = FP.nan := by cases x <;> rfl

theorem FP.foldl_add_nan (l : List FP) : l.foldl FP.add FP.nan = FP.nan := by
  induction l with
  | nil => rfl
  | cons h t ih => simpa [List.foldl, FP.nan_add] using ih

theorem FP.foldl_add_of_nan_mem (l : List FP) (a : FP) (h : FP.nan ∈ l) :
    l.foldl FP.add a = FP.nan := by
  induction l generalizing a with
  | nil => simp at h
  | cons x t ih =>
    rcases List.mem_cons.mp h with h1 | h2
    · rw [← h1]; simpa [List.foldl, FP.add_nan] using FP.foldl_add_nan t
    · exact ih _ h2

theorem FP.foldl_add_finite (qs : List ℚ) (a : ℚ) :
    (qs.map FP.finite).foldl FP.add (FP.finite a) = FP.finite (qs.foldl (· + ·) a) := by
  induction qs generalizing a with
  | nil => rfl
  | cons q t ih => simpa [List.foldl, FP.add] using ih (a + q)

/-- If some model bin whose `np.log` is `NaN` passes the `ymodel != 0.0` mask,
the whole sum is `NaN` and `loglikelihood` returns `-inf`. -/
theorem loglikelihoodFP_eq_negInf_of_log_nan (rlog : ℚ → ℚ)
    (ymodel ydata : List FP) (hlen : ymodel.length = ydata.length)
    (x : FP) (hx : x ∈ ymodel) (h0 : x ≠ FP.finite 0)
    (hlog : FP.log rlog x = FP.nan) :
    loglikelihoodFP rlog ymodel ydata = FP.negInf := by
  obtain ⟨i, hi, hxi⟩ := List.mem_iff_getElem.mp hx
  have hzlen : i < (List.zip ymodel ydata).length := by
    simpa [List.length_zip, hlen] using hi
  have hpair : (List.zip ymodel ydata)[i] =
      (ymodel[i], ydata.get ⟨i, hlen ▸ hi⟩) :=
    List.getElem_zip ..
  have hmem : FP.nan ∈ cvalsFP rlog ymodel ydata := by
    refine List.mem_map.mpr ⟨(List.zip ymodel ydata)[i], List.getElem_mem hzlen, ?_⟩
    rw [hpair]
    simp only [hxi, h0, if_pos, ne_eq, not_false_iff]
    rw [hlog, FP.mul_nan]
    show FP.add FP.nan _ = FP.nan
    exact FP.nan_add _
  have hsum : FP.sum (cvalsFP rlog ymodel ydata) = FP.nan :=
    FP.foldl_add_of_nan_mem _ _ hmem
  unfold loglikelihoodFP
  rw [hsum]
  rfl

/-- On all-finite inputs with a non-negative model, `loglikelihood` computes
exactly the spec's filtered sum, as a finite value. -/
theorem loglikelihoodFP_map_finite (rlog : ℚ → ℚ) (qm qd : List ℚ)
    (hq : ∀ q ∈ qm, 0 ≤ q) :
    loglikelihoodFP rlog (qm.map FP.finite) (qd.map FP.finite) =
      FP.finite (poissonLogLikeSpec rlog qm qd) := by
  have hcv : cvalsFP rlog (qm.map FP.finite) (qd.map FP.finite) =
      ((qm.zip qd).map (fun p =>
        if 0 < p.1 then p.2 * rlog p.1 - p.1 else 0)).map FP.finite := by
    unfold cvalsFP
    rw [List.zip_map FP.finite FP.finite qm qd, List.map_map, List.map_map]
    refine List.map_congr_left ?_
    rintro ⟨a, b⟩ hp
    have ha : 0 ≤ a := hq a (List.of_mem_zip hp).1
    by_cases h0 : a = 0
    · subst h0; simp [FP.log]
    · have hpos : 0 < a := lt_of_le_of_ne ha (Ne.symm h0)
      simp only [Function.comp, Prod.map, ne_eq, FP.finite.injEq, h0,
        not_false_iff, if_pos, if_true, hpos]
      rw [FP.log, if_neg (not_lt.mpr ha), if_neg h0]
      simp [FP.mul, FP.sub, FP.neg, FP.add, sub_eq_add_neg]
  have hsum : FP.sum (cvalsFP rlog (qm.map FP.finite) (qd.map FP.finite)) =
      FP.finite (poissonLogLikeSpec rlog qm qd) := by
    rw [hcv, FP.sum, FP.foldl_add_finite, poissonLogLikeSpec, List.sum_eq_foldl]
  unfold loglikelihoodFP
  rw [hsum]
  rfl

/-- `loglikelihood` returns either a finite value or `-inf`: the `np.isfinite`
guard replaces every non-finite accumulated sum by `-inf`. -/
theorem loglikelihoodFP_finite_or_negInf (rlog : ℚ → ℚ) (ymodel ydata : List FP) :
    (∃ q, loglikelihoodFP rlog ymodel ydata = FP.finite q) ∨
      loglikelihoodFP rlog ymodel ydata = FP.negInf := by
  unfold loglikelihoodFP
  rcases hs : FP.sum (cvalsFP rlog ymodel ydata) with q | _ | _ | _
  · exact Or.inl ⟨q, by simp [hs, FP.isfinite]⟩
  all_goals exact Or.inr (by simp [hs, FP.isfinite])

/-! ## Claim theorems: likelihood engine (floating-point level) -/

/-- C1: the claim `cash(predicted, observed) = -2 * loglikelihood(...)` fails
on the code, which returns `-loglikelihood / 2.0`.  At predicted counts
`[1.0]` and observed counts `[0.0]` the log-likelihood is `-1.0`, the
notebook's `cash` returns `0.5`, while `-2 * loglikelihood = 2.0`. -/
theorem cash_negTwoLogLike_mismatch :
    loglikelihoodFP (fun _ => 0) [FP.finite 1] [FP.finite 0] = FP.finite (-1) ∧
    cashFP (fun _ => 0) [FP.finite 1] [FP.finite 0] = FP.finite (1/2) ∧
    FP.mul (FP.finite (-2))
        (loglikelihoodFP (fun _ => 0) [FP.finite 1] [FP.finite 0]) = FP.finite 2 ∧
    cashFP (fun _ => 0) [FP.finite 1] [FP.finite 0] ≠
      FP.mul (FP.finite (-2))
        (loglikelihoodFP (fun _ => 0) [FP.finite 1] [FP.finite 0]) := by
  have h1 : loglikelihoodFP (fun _ => 0) [FP.finite 1] [FP.finite 0] =
      FP.finite (-1) := by
    norm_num [loglikelihoodFP, cvalsFP, FP.sum, FP.add, FP.mul, FP.sub, FP.neg,
      FP.log, FP.isfinite]
  have h2 : cashFP (fun _ => 0) [FP.finite 1] [FP.finite 0] = FP.finite (1/2) := by
    rw [cashFP, h1]
    norm_num [FP.neg, FP.div]
  have h3 : FP.mul (FP.finite (-2))
      (loglikelihoodFP (fun _ => 0) [FP.finite 1] [FP.finite 0]) = FP.finite 2 := by
    rw [h1]
    norm_num [FP.mul]
  refine ⟨h1, h2, h3, ?_⟩
  rw [h2, h3]
  simp only [ne_eq, FP.finite.injEq]
  norm_num

/-- C3 counterexample: the objective handed to the minimizer is **not** always
finite.  When the predicted model histogram contains a `NaN` (e.g. from a
`NaN` parameter vector propagated through `np.power` and the forward fold),
`loglikelihood` substitutes `-inf`, and `cash = -(-inf)/2 = +inf`: the
minimizer receives a non-finite value. -/
theorem cash_not_always_finite :
    FP.isfinite (cashFP (fun _ => 0) [FP.nan] [FP.finite 0]) = false ∧
    cashFP (fun _ => 0) [FP.nan] [FP.finite 0] = FP.posInf := by
  have h : cashFP (fun _ => 0) [FP.nan] [FP.finite 0] = FP.posInf := by
    simp [cashFP, loglikelihoodFP, cvalsFP, FP.sum, FP.add, FP.mul, FP.sub,
      FP.neg, FP.div, FP.log, FP.isfinite]
  exact ⟨by rw [h]; rfl, h⟩

/-- C3 (amended): the objective is never `NaN`: every evaluation of `cash`
returns either a finite value or `+inf` (the documented substitute `-inf` for
a non-finite log-likelihood, negated and halved), for all model and observed
count vectors. -/
theorem cash_finite_or_posInf (rlog : ℚ → ℚ) (ymodel ydata : List FP) :
    FP.isfinite (cashFP rlog ymodel ydata) = true ∨
      cashFP rlog ymodel ydata = FP.posInf := by
  rcases loglikelihoodFP_finite_or_negInf rlog ymodel ydata with ⟨q, hq⟩ | h
  · left
    rw [cashFP, hq]
    norm_num [FP.neg, FP.div, FP.isfinite]
  · right
    rw [cashFP, h]
    norm_num [FP.neg, FP.div]

/-- C4: for equal-length predicted and observed count vectors with
non-negative (finite) predicted values, `loglikelihood` equals the sum of
`x_i * ln(m_i) - m_i` over exactly the bins with `m_i > 0`, each `m_i = 0`
bin contributing `0` (not `-inf`); `poissonLogLikeSpec` is that spec-side
sum. -/
theorem loglikelihood_is_positive_bin_sum (rlog : ℚ → ℚ) (qm qd : List ℚ)
    (_hlen : qm.length = qd.length) (hq : ∀ q ∈ qm, 0 ≤ q) :
    loglikelihoodFP rlog (qm.map FP.finite) (qd.map FP.finite) =
      FP.finite (poissonLogLikeSpec rlog qm qd) :=
  loglikelihoodFP_map_finite rlog qm qd hq

/-- Witness for C4 at predicted `[0, 1]`, observed `[2, 3]`. -/
theorem loglikelihood_is_positive_bin_sum_witness :
    ([0, 1] : List ℚ).length = ([2, 3] : List ℚ).length ∧
    (∀ q ∈ ([0, 1] : List ℚ), 0 ≤ q) ∧
    loglikelihoodFP (fun _ => 0) ([0, 1].map FP.finite) ([2, 3].map FP.finite) =
      FP.finite (poissonLogLikeSpec (fun _ => 0) [0, 1] [2, 3]) :=
  ⟨rfl, by norm_num,
    loglikelihood_is_positive_bin_sum (fun _ => 0) [0, 1] [2, 3] rfl (by norm_num)⟩

/-- C5: (a) whenever some predicted bin is `NaN`, `loglikelihood` returns
`-inf`; (b) whenever all predicted bins are finite and non-negative with at
least one positive, and the observed counts are finite and non-negative,
`loglikelihood` returns a finite value. -/
theorem loglikelihood_nan_vs_finite (rlog : ℚ → ℚ) (ymodel ydata : List FP)
    (hlen : ymodel.length = ydata.length) :
    (FP.nan ∈ ymodel → loglikelihoodFP rlog ymodel ydata = FP.negInf) ∧
    (∀ qm qd : List ℚ, ymodel = qm.map FP.finite → ydata = qd.map FP.finite →
      (∀ q ∈ qm, 0 ≤ q) → (∃ q ∈ qm, 0 < q) → (∀ q ∈ qd, 0 ≤ q) →
      FP.isfinite (loglikelihoodFP rlog ymodel ydata) = true) := by
  constructor
  · intro h
    exact loglikelihoodFP_eq_negInf_of_log_nan rlog ymodel ydata hlen FP.nan h
      (by simp) rfl
  · rintro qm qd rfl rfl hq _ _
    rw [loglikelihoodFP_map_finite rlog qm qd hq]
    rfl

/-- Witness for C5 at predicted `[1.0]`, observed `[0.0]` (all-finite branch). -/
theorem loglikelihood_nan_vs_finite_witness :
    FP.isfinite (loglikelihoodFP (fun _ => 0)
      (([1] : List ℚ).map FP.finite) (([0] : List ℚ).map FP.finite)) = true :=
  (loglikelihood_nan_vs_finite (fun _ => 0) ([1].map FP.finite) ([0].map FP.finite)
      rfl).2 [1] [0] rfl rfl (by norm_num) ⟨1, by norm_num⟩ (by norm_num)

/-- C10: a strictly negative predicted bin is not excluded by the
`ymodel != 0.0` mask, `np.log` of it is `NaN`, the accumulated sum is
non-finite, and `loglikelihood` returns `-inf`. -/
theorem loglikelihood_negInf_of_negative_bin (rlog : ℚ → ℚ)
    (ymodel ydata : List FP) (q : ℚ) (hlen : ymodel.length = ydata.length)
    (hq : q < 0) (hmem : FP.finite q ∈ ymodel)
    (_hdata : ∀ x ∈ ydata, ∃ r : ℚ, x = FP.finite r) :
    loglikelihoodFP rlog ymodel ydata = FP.negInf := by
  refine loglikelihoodFP_eq_negInf_of_log_nan rlog ymodel ydata hlen
    (FP.finite q) hmem ?_ ?_
  · simp [hq.ne]
  · simp [FP.log, hq]

/-- Witness for C10 at predicted `[-1.0]`, observed `[0.0]`. -/
theorem loglikelihood_negInf_of_negative_bin_witness :
    loglikelihoodFP (fun _ => 0) [FP.finite (-1)] [FP.finite 0] = FP.negInf :=
  loglikelihood_negInf_of_negative_bin (fun _ => 0) [FP.finite (-1)] [FP.finite 0]
    (-1) rfl (by norm_num) (by simp)
    (by intro x hx; rw [List.mem_singleton] at hx; exact ⟨0, hx⟩)

/-! ## Real-valued helper lemmas -/

theorem sqrt_four : Real.sqrt 4 = 2 := by
  rw [show (4:ℝ) = 2 ^ 2 by norm_num, Real.sqrt_sq (by norm_num)]

theorem sqrt_nine : Real.sqrt 9 = 3 := by
  rw [show (9:ℝ) = 3 ^ 2 by norm_num, Real.sqrt_sq (by norm_num)]

/-- Evaluating `mod_residuals` at model counts `[1, 4, 6]` and observed
counts `[0, 4, 9]`: the errors are `sqrt(counts) = [0, 2, 3]` (no floor), the
zero-error first bin keeps its `np.zeros` value `0`. -/
theorem mod_residuals_eval_example :
    mod_residualsR [1, 4, 6] [0, 4, 9] = [0, 0, -1] := by
  unfold mod_residualsR
  simp [List.zip_cons_cons, sqrt_four, sqrt_nine]
  norm_num

theorem loglikelihoodR_cons (a b : ℝ) (l l2 : List ℝ) :
    loglikelihoodR (a :: l) (b :: l2) =
      (if a ≠ 0 then b * Real.log a - a else 0) + loglikelihoodR l l2 := by
  simp [loglikelihoodR, List.zip_cons_cons]

/-- Per-bin optimality of the filtered Poisson bin term: for a non-negative
observed count `x` and a strictly positive model count `y`, the bin's
contribution at model `y` never exceeds its contribution at model `x`. -/
theorem cash_bin_le (x y : ℝ) (hx : 0 ≤ x) (hy : 0 < y) :
    (if y ≠ 0 then x * Real.log y - y else 0) ≤
      (if x ≠ 0 then x * Real.log x - x else 0) := by
  rw [if_pos hy.ne']
  by_cases h0 : x = 0
  · subst h0
    simp
    linarith
  · rw [if_pos h0]
    have hxpos : 0 < x := lt_of_le_of_ne hx (Ne.symm h0)
    have hlog : Real.log (y / x) ≤ y / x - 1 :=
      Real.log_le_sub_one_of_pos (by positivity)
    have hdiv : Real.log (y / x) = Real.log y - Real.log x :=
      Real.log_div hy.ne' hxpos.ne'
    have hmul : x * (Real.log y - Real.log x) ≤ x * (y / x - 1) := by
      rw [← hdiv]; exact mul_le_mul_of_nonneg_left hlog hx
    have hsimp : x * (y / x - 1) = y - x := by field_simp
    nlinarith [hmul, hsimp]

/-- Summed over the bins: with strictly positive perturbed model counts the
log-likelihood at the perturbation never exceeds the one at the data. -/
theorem loglikelihoodR_self_ge (m mp : List ℝ) (hlen : mp.length = m.length)
    (hm : ∀ x ∈ m, 0 ≤ x) (hmp : ∀ y ∈ mp, 0 < y) :
    loglikelihoodR mp m ≤ loglikelihoodR m m := by
  induction m generalizing mp with
  | nil =>
    rw [List.length_nil, List.length_eq_zero] at hlen
    subst hlen
    exact le_refl _
  | cons x t ih =>
    cases mp with
    | nil => simp at hlen
    | cons y tp =>
      rw [loglikelihoodR_cons, loglikelihoodR_cons]
      have hx : 0 ≤ x := hm x (List.mem_cons_self x t)
      have hy : 0 < y := hmp y (List.mem_cons_self y tp)
      have hih : loglikelihoodR tp t ≤ loglikelihoodR t t :=
        ih tp (by simpa using hlen)
          (fun z hz => hm z (List.mem_cons_of_mem _ hz))
          (fun z hz => hmp z (List.mem_cons_of_mem _ hz))
      exact add_le_add (cash_bin_le x y hx hy) hih

/-! ## Claim theorems: residuals, ordering, state, midpoints -/

/-- C2 counterexample: the claim's residual vector is wrong on the code.  For
observed counts `[0, 4, 9]` and predicted `[1, 4, 6]`, `mod_residuals` uses
`cts_err = sqrt(counts) = [0, 2, 3]` with **no** flooring, assigns the
zero-error first bin residual `0`, and returns `[0, 0, -1]`, not the claimed
`[1, 0, -1]`. -/
theorem mod_residuals_not_sqrt_floored :
    mod_residualsR [1, 4, 6] [0, 4, 9] ≠ [1, 0, -1] := by
  rw [mod_residuals_eval_example]
  intro h
  have h0 : (0:ℝ) = 1 := by
    have := List.head_eq_of_cons_eq h
    exact this
  norm_num at h0

/-- C2 (amended): for observed counts `[0, 4, 9]` and predicted `[1, 4, 6]`
the residuals equal `[0, 0, -1]`; in general the errors are
`sqrt(observed_i)` with no floor, each bin with positive observed counts gets
`(predicted_i - observed_i) / sqrt(observed_i)`, and each zero-count
(zero-error) bin is assigned residual `0`. -/
theorem mod_residuals_sqrt_no_floor :
    mod_residualsR [1, 4, 6] [0, 4, 9] = [0, 0, -1] ∧
    ∀ (mc c : List ℝ) (i : ℕ) (h1 : i < mc.length) (h2 : i < c.length)
      (h3 : i < (mod_residualsR mc c).length),
      (0 < c.get ⟨i, h2⟩ →
        (mod_residualsR mc c).get ⟨i, h3⟩ =
          (mc.get ⟨i, h1⟩ - c.get ⟨i, h2⟩) / Real.sqrt (c.get ⟨i, h2⟩)) ∧
      (c.get ⟨i, h2⟩ = 0 → (mod_residualsR mc c).get ⟨i, h3⟩ = 0) := by
  refine ⟨mod_residuals_eval_example, ?_⟩
  intro mc c i h1 h2 h3
  have hg : (mod_residualsR mc c).get ⟨i, h3⟩ =
      (if Real.sqrt (c.get ⟨i, h2⟩) ≠ 0 then
        (mc.get ⟨i, h1⟩ - c.get ⟨i, h2⟩) / Real.sqrt (c.get ⟨i, h2⟩) else 0) := by
    simp [mod_residualsR, List.get_eq_getElem, List.getElem_map, List.getElem_zip]
  constructor
  · intro hpos
    rw [hg, if_pos (Real.sqrt_pos.mpr hpos).ne']
  · intro hzero
    rw [hg, hzero, Real.sqrt_zero]
    simp

/-- Witness for C2 (amended) at a single bin with observed count `4`. -/
theorem mod_residuals_sqrt_no_floor_witness :
    mod_residualsR [1, 4, 6] [0, 4, 9] = [0, 0, -1] ∧
    (0:ℝ) < 4 ∧
    (mod_residualsR [3] [4]).get ⟨0, by simp [mod_residualsR]⟩ =
      ((3:ℝ) - 4) / Real.sqrt 4 :=
  ⟨mod_residuals_sqrt_no_floor.1, by norm_num,
    (mod_residuals_sqrt_no_floor.2 [3] [4] 0 (by norm_num) (by norm_num)
      (by simp [mod_residualsR])).1 (by norm_num)⟩

/-- C6 counterexample: self-consistency is **not** a minimum of the code's
Cash objective once a perturbed bin hits zero.  For observed counts `[1, 1]`
and the perturbed prediction `[0, 2]` of the same total, the zero-model bin
contributes `0` instead of the (negative) `1*ln(m) - m`, so
`cash([0,2], [1,1]) < cash([1,1], [1,1])`, contradicting
`cash(m, m) <= cash(m', m)`. -/
theorem cash_self_not_minimal :
    ([0, 2] : List ℝ).sum = ([1, 1] : List ℝ).sum ∧
    cashR [0, 2] [1, 1] < cashR [1, 1] [1, 1] := by
  constructor
  · norm_num
  · have hlog2 : 0 < Real.log 2 := Real.log_pos (by norm_num)
    simp [cashR, loglikelihoodR, List.zip_cons_cons, Real.log_one]
    nlinarith [hlog2]

/-- C6 (amended): when every perturbed predicted bin is strictly positive (so
no bin is dropped by the `ymodel != 0.0` mask), the Cash statistic at
predicted = observed is at most the statistic at the perturbed prediction of
the same total counts. -/
theorem cash_self_minimal_of_positive (m mp : List ℝ)
    (hlen : mp.length = m.length) (hm : ∀ x ∈ m, 0 ≤ x)
    (hmp : ∀ y ∈ mp, 0 < y) (_hsum : mp.sum = m.sum) :
    cashR m m ≤ cashR mp m := by
  have h := loglikelihoodR_self_ge m mp hlen hm hmp
  unfold cashR
  linarith

/-- Witness for C6 (amended) at observed `[1, 1]`, perturbed `[1/2, 3/2]`. -/
theorem cash_self_minimal_of_positive_witness :
    cashR [1, 1] [1, 1] ≤ cashR [1/2, 3/2] [1, 1] :=
  cash_self_minimal_of_positive [1, 1] [1/2, 3/2] rfl (by norm_num)
    (by norm_num) (by norm_num)

/-- C7: the Cash objective is deterministic and re-entrant.
`set_model_pars` overwrites both model parameters from the parameter vector,
so the value and the post-state of an evaluation do not depend on the
incoming model state; in particular re-evaluating a vector after any other
evaluation returns the same scalar as evaluating it first. -/
theorem cash_eval_deterministic (calculate : Powerlaw → List ℝ → List ℝ → List ℝ)
    (apply_resp : List ℝ → List ℝ) (elo ehi counts : List ℝ)
    (pars pars2 : ℝ × ℝ) (m1 m2 : Powerlaw) :
    cash_eval calculate apply_resp elo ehi counts pars m1 =
      cash_eval calculate apply_resp elo ehi counts pars m2 ∧
    (cash_eval calculate apply_resp elo ehi counts pars
        (cash_eval calculate apply_resp elo ehi counts pars2 m1).2).1 =
      (cash_eval calculate apply_resp elo ehi counts pars m1).1 := by
  constructor <;> rfl

/-- C8: each bin midpoint equals `0.5 * (low + high)` and, when
`low_i < high_i`, lies strictly between the two edges; `bin_mid` is a pure
function of the edge lists. -/
theorem bin_mid_strictly_between (elo ehi : List ℝ) (i : ℕ)
    (h1 : i < elo.length) (h2 : i < ehi.length)
    (h3 : i < (bin_mid elo ehi).length)
    (hlt : elo.get ⟨i, h1⟩ < ehi.get ⟨i, h2⟩) :
    (bin_mid elo ehi).get ⟨i, h3⟩ = 0.5 * (elo.get ⟨i, h1⟩ + ehi.get ⟨i, h2⟩) ∧
    elo.get ⟨i, h1⟩ < (bin_mid elo ehi).get ⟨i, h3⟩ ∧
    (bin_mid elo ehi).get ⟨i, h3⟩ < ehi.get ⟨i, h2⟩ := by
  have hg : (bin_mid elo ehi).get ⟨i, h3⟩ =
      0.5 * (elo.get ⟨i, h1⟩ + ehi.get ⟨i, h2⟩) := by
    simp [bin_mid, List.get_eq_getElem, List.getElem_map, List.getElem_zip]
  refine ⟨hg, ?_, ?_⟩ <;> rw [hg] <;> linarith

/-- Witness for C8 at the single bin `[1, 3]`: the midpoint is `2`. -/
theorem bin_mid_strictly_between_witness :
    (1:ℝ) < 3 ∧
    (bin_mid [1] [3]).get ⟨0, by simp [bin_mid]⟩ = 0.5 * ((1:ℝ) + 3) ∧
    (1:ℝ) < (bin_mid [1] [3]).get ⟨0, by simp [bin_mid]⟩ :=
  ⟨by norm_num,
    (bin_mid_strictly_between [1] [3] 0 (by norm_num) (by norm_num)
      (by simp [bin_mid]) (by norm_num)).1,
    (bin_mid_strictly_between [1] [3] 0 (by norm_num) (by norm_num)
      (by simp [bin_mid]) (by norm_num)).2.1⟩

/-- C9: `set_model_pars` assigns the power-law amplitude `10 ** lognorm`,
which is strictly positive for every real `lognorm`; the model state threaded
through an objective evaluation therefore always carries a strictly positive
amplitude, and a zero or negative amplitude is unreachable through this
parameterization. -/
theorem set_model_pars_positive_norm (pars : ℝ × ℝ) (m : Powerlaw)
    (calculate : Powerlaw → List ℝ → List ℝ → List ℝ)
    (apply_resp : List ℝ → List ℝ) (elo ehi : List ℝ) :
    (set_model_pars pars m).norm = Real.rpow 10 pars.1 ∧
    0 < (set_model_pars pars m).norm ∧
    0 < (model_chist_eval calculate apply_resp elo ehi pars m).2.norm := by
  refine ⟨rfl, ?_, ?_⟩ <;> exact Real.rpow_pos_of_pos (by norm_num) _
